import Mathlib

/-!
Verification of the CPU utilization computation of the LongviewGauge
component: the usage aggregator `sumCPUUsage`, the normalizer
`normalizeValue`, the status-text selector `innerText`, and the state
updates performed by the component's fetch handlers.

JavaScript numbers are modelled as rationals (`ℚ`); `undefined` values
as `Option`; the ramda `clamp` throw (min greater than max) as `none`.
-/

/-- A sample point of a metric series; only the numeric `y` field is read
(via `pathOr 0 [entry, 0, 'y']`), and it may be absent. -/
structure CPUStat where
  y : Option ℚ
deriving DecidableEq, Repr

/-- A per-processor record: mapping from series name to its ordered
sequence of sample points (`Record<string, Stat[]>`). -/
abbrev CPU := List (String × List CPUStat)

/-- A metric snapshot: mapping from processor id to its `CPU` record
(`Record<string, CPU>`). -/
abbrev CPURecord := List (String × CPU)

/-- The lookup `pathOr(0, [entry, 0, 'y'], cpu)`: the `y` field of the
sample at index 0 of the series, defaulting to 0 when the series is empty
or the field is absent. -/
def pathOrY (samples : List CPUStat) : ℚ :=
  match samples with
  | [] => 0
  | p :: _ => (p.y).getD 0

/-- `sumCPUUsage`: accumulate, over every processor key and every series
key, the first sample's `y` value into a running sum. -/
def sumCPUUsage (CPUData : CPURecord) : ℚ :=
  CPUData.foldl
    (fun sum pair => pair.2.foldl (fun sum entry => sum + pathOrY entry.2) sum)
    0

/-- The default parameter `CPUData: Record<string, CPU> = {}`: an absent
argument is replaced by the empty record. -/
def sumCPUUsageOpt (CPUData : Option CPURecord) : ℚ :=
  sumCPUUsage (CPUData.getD [])

/-- Ramda `clamp(min, max, value)`: throws when `min > max` (modelled as
`none`), otherwise bounds `value` into `[min, max]`. -/
def clamp (min max value : ℚ) : Option ℚ :=
  if min > max then none
  else some (if value < min then min else if value > max then max else value)

/-- `Math.round`: round half towards positive infinity, `⌊x + 1/2⌋`. -/
def jsRound (x : ℚ) : ℤ :=
  ⌊x + 1/2⌋

/-- `normalizeValue(value, numCores)`: clamp into `[0, 100 * numCores]`,
then `Math.round` the clamped value. -/
def normalizeValue (value numCores : ℚ) : Option ℤ :=
  (clamp 0 (100 * numCores) value).map jsRound

/-- An API error carrying a reason string. -/
structure APIError where
  reason : String
deriving DecidableEq, Repr

/-- `innerText(value, loading, error)`: error reason first, then the
loading indicator, else the value formatted as a percentage. -/
def innerText (value : ℤ) (loading : Bool) (error : Option APIError) : String :=
  match error with
  | some e => e.reason
  | none => if loading then "Loading..." else toString value ++ "%"

/-- The four `useState` hooks of `LongviewGauge`. -/
structure GaugeState where
  loading : Bool
  error : Option APIError
  usedCPU : Option ℤ
  numCores : Option ℚ
deriving DecidableEq, Repr

/-- JavaScript falsiness of a `number | undefined` value: `undefined`
and `0` are falsy. -/
def jsFalsy (v : Option ℤ) : Bool :=
  match v with
  | none => true
  | some n => n == 0

/-- The response of `requestStats(clientAPIKey, 'getLatestValue',
['cpu', 'sysinfo'])`: the `CPU` snapshot (possibly absent) and the value
at path `['SysInfo', 'cpu', 'cores']` (possibly absent). -/
structure StatsResponse where
  CPU : Option CPURecord
  SysInfoCores : Option ℚ
deriving DecidableEq, Repr

/-- The `.catch` handler: when the captured `usedCPU` is falsy
(`!usedCPU`), set the generic error and clear loading; otherwise leave
the state untouched. -/
def applyFailure (s : GaugeState) : GaugeState :=
  if jsFalsy s.usedCPU then
    { s with error := some { reason := "Error" }, loading := false }
  else s

/-- The `.then` handler: clear loading and error; return early when the
core count is falsy (`!cores`); otherwise store the core count, aggregate
and normalize the snapshot, and store the result. A throw inside the
handler (ramda `clamp` with a negative core count) rejects the promise
chain and is handled by the `.catch` handler. -/
def applySuccess (s : GaugeState) (data : StatsResponse) : GaugeState :=
  let s1 : GaugeState := { s with loading := false, error := none }
  match data.SysInfoCores with
  | none => s1
  | some cores =>
    if cores = 0 then s1
    else
      let s2 : GaugeState := { s1 with numCores := some cores }
      match normalizeValue (sumCPUUsageOpt data.CPU) cores with
      | some n => { s2 with usedCPU := some n }
      | none => applyFailure s2

/-- One fetch cycle resolves or rejects. -/
inductive Fetch where
  | success (data : StatsResponse)
  | failure
deriving Repr

/-- The state transition of one fetch cycle. -/
def step (s : GaugeState) (f : Fetch) : GaugeState :=
  match f with
  | .success data => applySuccess s data
  | .failure => applyFailure s

/-- The initial hook values: loading, no error, no usage, no cores. -/
def initialState : GaugeState :=
  { loading := true, error := none, usedCPU := none, numCores := none }

/-- The states the component can be in after any sequence of fetches. -/
inductive Reachable : GaugeState → Prop where
  | init : Reachable initialState
  | step (s : GaugeState) (f : Fetch) : Reachable s → Reachable (step s f)

/-- The `max` prop: `typeof numCores === 'undefined' ? 1 : 100 * numCores`. -/
def gaugeMax (s : GaugeState) : ℚ :=
  match s.numCores with
  | none => 1
  | some c => 100 * c

/-- The `value` prop: `typeof usedCPU === 'undefined' ? 0 : usedCPU`. -/
def gaugeValue (s : GaugeState) : ℤ :=
  match s.usedCPU with
  | none => 0
  | some v => v

/-! ### Helper lemmas -/

theorem foldl_add_eq {α : Type} (f : α → ℚ) (l : List α) (a : ℚ) :
    l.foldl (fun acc x => acc + f x) a = a + (l.map f).sum := by
  induction l generalizing a with
  | nil => simp
  | cons x xs ih => simp [ih, add_assoc]

theorem sumCPUUsage_eq_sum (d : CPURecord) :
    sumCPUUsage d
      = (d.map fun pr => ((pr.2).map fun e => pathOrY e.2).sum).sum := by
  unfold sumCPUUsage
  simp only [foldl_add_eq, zero_add]

theorem pathOrY_eq_head (samples : List CPUStat) :
    pathOrY samples = (samples.head?.bind CPUStat.y).getD 0 := by
  cases samples <;> simp [pathOrY]

theorem sumCPUUsage_cons (x : String × CPU) (rest : CPURecord) :
    sumCPUUsage (x :: rest)
      = ((x.2).map fun e => pathOrY e.2).sum + sumCPUUsage rest := by
  rw [sumCPUUsage_eq_sum, sumCPUUsage_eq_sum, List.map_cons, List.sum_cons]

/-! ### Claim theorems -/

/-- C1: `sumCPUUsage` returns the sum, over every processor and every
series, of the value of the first sample point (index 0) of that series,
a series with no sample at index 0 contributing 0; the empty snapshot
yields 0, and a snapshot of N processors each contributing a value yields
the sum of those values. -/
theorem sumCPUUsage_spec :
    (∀ d : CPURecord,
       sumCPUUsage d
         = (d.map fun pr =>
             ((pr.2).map fun e => (e.2.head?.bind CPUStat.y).getD 0).sum).sum) ∧
    sumCPUUsage [] = 0 ∧
    (∀ procs : List (String × ℚ),
       sumCPUUsage (procs.map fun pr => (pr.1, [("user", [⟨some pr.2⟩])]))
         = (procs.map fun pr => pr.2).sum) := by
  refine ⟨?_, rfl, ?_⟩
  · intro d
    rw [sumCPUUsage_eq_sum]
    simp [pathOrY_eq_head]
  · intro procs
    induction procs with
    | nil => rfl
    | cons pr tl ih =>
      rw [List.map_cons, sumCPUUsage_cons, ih, List.map_cons, List.sum_cons]
      simp [pathOrY]

/-- C5: a snapshot with exactly one processor holding exactly one series
whose single sample carries value `v` sums to `v`. -/
theorem sumCPUUsage_singleton (p s : String) (v : ℚ) :
    sumCPUUsage [(p, [(s, [{ y := some v }])])] = v := by
  simp [sumCPUUsage, pathOrY]

/-- C7: `sumCPUUsage` is total and every malformed or missing element
contributes 0: an absent map (default parameter) yields 0, a processor
with an empty series mapping contributes 0, an empty series contributes
0, and a series whose first sample lacks the `y` field contributes 0. -/
theorem sumCPUUsage_total_edges :
    sumCPUUsageOpt none = 0 ∧
    (∀ (k : String) (rest : CPURecord),
       sumCPUUsage ((k, []) :: rest) = sumCPUUsage rest) ∧
    (∀ (k s : String) (series : CPU) (rest : CPURecord),
       sumCPUUsage ((k, (s, []) :: series) :: rest)
         = sumCPUUsage ((k, series) :: rest)) ∧
    (∀ (k s : String) (pt : CPUStat) (tl : List CPUStat) (series : CPU)
       (rest : CPURecord), pt.y = none →
       sumCPUUsage ((k, (s, pt :: tl) :: series) :: rest)
         = sumCPUUsage ((k, series) :: rest)) := by
  refine ⟨rfl, ?_, ?_, ?_⟩
  · intro k rest
    rw [sumCPUUsage_eq_sum, sumCPUUsage_eq_sum]
    simp
  · intro k s series rest
    rw [sumCPUUsage_eq_sum, sumCPUUsage_eq_sum]
    simp [pathOrY]
  · intro k s pt tl series rest h
    rw [sumCPUUsage_eq_sum, sumCPUUsage_eq_sum]
    simp [pathOrY, h]

/-- Witness for C7: a series whose first sample lacks the `y` field is
summed exactly like an empty series mapping. -/
theorem sumCPUUsage_total_edges_app :
    sumCPUUsage [("cpu0", [("user", [{ y := none }])])]
      = sumCPUUsage [("cpu0", [])] :=
  sumCPUUsage_total_edges.2.2.2 "cpu0" "user" ⟨none⟩ [] [] [] rfl

theorem clamp_of_le (lo hi value : ℚ) (h : lo ≤ hi) :
    clamp lo hi value
      = some (if value < lo then lo else if value > hi then hi else value) := by
  simp [clamp, not_lt.mpr h]

theorem clamp_bounds (lo hi value : ℚ) (h : lo ≤ hi) :
    ∃ w, clamp lo hi value = some w ∧ lo ≤ w ∧ w ≤ hi := by
  rw [clamp_of_le lo hi value h]
  refine ⟨_, rfl, ?_, ?_⟩ <;> split_ifs <;> linarith

theorem jsRound_nonneg (w : ℚ) (h : 0 ≤ w) : 0 ≤ jsRound w := by
  unfold jsRound
  rw [Int.floor_nonneg]
  linarith

theorem jsRound_le_int (w : ℚ) (n : ℤ) (h : w ≤ n) : jsRound w ≤ n := by
  unfold jsRound
  rw [Int.floor_le_iff]
  linarith

theorem jsRound_int (n : ℤ) : jsRound (n : ℚ) = n := by
  unfold jsRound
  rw [Int.floor_int_add]
  norm_num

/-- C2: for every total and every non-negative integer core count `c`,
`normalizeValue` returns an integer in `[0, 100 * c]`; with `c = 0` the
result is forced to 0, and in particular `normalizeValue (-5) 2 = 0` and
`normalizeValue 1000 2 = 200`. -/
theorem normalizeValue_bounds :
    (∀ (t : ℚ) (c : ℕ), ∃ r : ℤ,
       normalizeValue t c = some r ∧ 0 ≤ r ∧ r ≤ 100 * (c : ℤ)) ∧
    normalizeValue (-5) 2 = some 0 ∧
    normalizeValue 1000 2 = some 200 ∧
    (∀ t : ℚ, normalizeValue t 0 = some 0) := by
  refine ⟨?_, ?_, ?_, ?_⟩
  · intro t c
    have hc : (0 : ℚ) ≤ 100 * (c : ℚ) := by positivity
    obtain ⟨w, hw, h0, h1⟩ := clamp_bounds 0 (100 * (c : ℚ)) t hc
    refine ⟨jsRound w, ?_, jsRound_nonneg w h0, ?_⟩
    · unfold normalizeValue
      rw [hw, Option.map_some']
    · exact jsRound_le_int w (100 * (c : ℤ)) (by exact_mod_cast h1)
  · norm_num [normalizeValue, clamp, jsRound]
  · norm_num [normalizeValue, clamp, jsRound]
  · intro t
    unfold normalizeValue
    rw [mul_zero, clamp_of_le 0 0 t le_rfl, Option.map_some']
    have hval : (if t < 0 then (0 : ℚ) else if t > 0 then 0 else t) = 0 := by
      split_ifs with h1 h2
      · rfl
      · rfl
      · linarith
    rw [hval]
    norm_num [jsRound]

/-- C8: `normalizeValue` clamps first and then rounds half up: every
value exactly halfway between two integers inside the clamp range rounds
to the larger integer, and in particular `normalizeValue 50.5 1 = 51`. -/
theorem normalizeValue_half_up :
    (∀ (k : ℤ) (c : ℕ), 0 ≤ k → (k : ℚ) + 1/2 ≤ 100 * (c : ℚ) →
       normalizeValue ((k : ℚ) + 1/2) c = some (k + 1)) ∧
    normalizeValue 50.5 1 = some 51 := by
  constructor
  · intro k c hk hle
    have hc : (0 : ℚ) ≤ 100 * (c : ℚ) := by positivity
    have hge : (0 : ℚ) ≤ (k : ℚ) + 1/2 := by
      have hk' : (0 : ℚ) ≤ (k : ℚ) := by exact_mod_cast hk
      linarith
    unfold normalizeValue
    rw [clamp_of_le 0 (100 * (c : ℚ)) ((k : ℚ) + 1/2) hc,
      if_neg (not_lt.mpr hge), if_neg (not_lt.mpr hle), Option.map_some']
    congr 1
    unfold jsRound
    have harith : (k : ℚ) + 1/2 + 1/2 = ((k + 1 : ℤ) : ℚ) := by push_cast; ring
    rw [harith, Int.floor_intCast]
  · norm_num [normalizeValue, clamp, jsRound]

/-- Witness for C8: the halfway value 50.5 with one core rounds up to 51. -/
theorem normalizeValue_half_up_app :
    normalizeValue ((50 : ℤ) + 1/2) 1 = some 51 :=
  normalizeValue_half_up.1 50 1 (by decide) (by norm_num)

/-- C10: `normalizeValue` is idempotent: feeding its own result back in,
with the same non-negative integer core count, returns the same result. -/
theorem normalizeValue_idem (v : ℚ) (c : ℕ) :
    (normalizeValue v c).bind (fun r => normalizeValue (r : ℚ) c)
      = normalizeValue v c := by
  have hc : (0 : ℚ) ≤ 100 * (c : ℚ) := by positivity
  obtain ⟨w, hw, h0, h1⟩ := clamp_bounds 0 (100 * (c : ℚ)) v hc
  have hr0 : (0 : ℚ) ≤ ((jsRound w : ℤ) : ℚ) := by
    exact_mod_cast jsRound_nonneg w h0
  have hr1 : ((jsRound w : ℤ) : ℚ) ≤ 100 * (c : ℚ) := by
    exact_mod_cast jsRound_le_int w (100 * (c : ℤ)) (by exact_mod_cast h1)
  unfold normalizeValue
  rw [hw, Option.map_some', Option.some_bind,
    clamp_of_le 0 (100 * (c : ℚ)) ((jsRound w : ℤ) : ℚ) hc,
    if_neg (not_lt.mpr hr0), if_neg (not_lt.mpr hr1), Option.map_some',
    jsRound_int]

/-- C3: `innerText` follows a strict priority: a present error wins with
its reason string regardless of value and loading flag, then a true
loading flag yields the loading indicator, else the value is formatted
as a percentage. -/
theorem innerText_priority (v : ℤ) (l : Bool) (e : Option APIError) :
    (∀ err : APIError, e = some err → innerText v l e = err.reason) ∧
    (e = none → l = true → innerText v l e = "Loading...") ∧
    (e = none → l = false → innerText v l e = toString v ++ "%") := by
  refine ⟨?_, ?_, ?_⟩
  · intro err he
    rw [he]
    rfl
  · intro he hl
    rw [he, hl]
    rfl
  · intro he hl
    rw [he, hl]
    rfl

/-- Witness for C3: an error beats a computed value, loading beats the
value, and a settled value renders as a percentage. -/
theorem innerText_priority_app :
    innerText 0 false (some { reason := "boom" }) = "boom" ∧
    innerText 0 true none = "Loading..." ∧
    innerText 42 false none = "42%" :=
  ⟨(innerText_priority 0 false (some { reason := "boom" })).1 { reason := "boom" } rfl,
   (innerText_priority 0 true none).2.1 rfl rfl,
   ((innerText_priority 42 false none).2.2 rfl rfl).trans rfl⟩

/-- Counterexample to C4: with a previously stored usage value of 0, a
fetch failure is not swallowed: the catch handler sees `!usedCPU` as true
and sets the generic error, so the error state does not remain unset. -/
theorem applyFailure_zero_counterexample :
    (applyFailure { loading := false, error := none, usedCPU := some 0,
                    numCores := some 1 }).error = some { reason := "Error" } :=
  rfl

/-- C4 (amended): on a fetch failure, when the stored usage value is
absent or zero the handler sets the generic error reason and clears
loading; when a nonzero usage value is stored the failure is swallowed
and the whole state, the stored value included, is left unchanged. -/
theorem applyFailure_spec (s : GaugeState) :
    (jsFalsy s.usedCPU = true →
       applyFailure s
         = { s with error := some { reason := "Error" }, loading := false }) ∧
    (jsFalsy s.usedCPU = false → applyFailure s = s) := by
  constructor <;> intro h <;> simp [applyFailure, h]

/-- Witness for C4: the failure handler at a state with no stored value
and at a state storing the nonzero value 5. -/
theorem applyFailure_spec_app :
    applyFailure { loading := true, error := none, usedCPU := none, numCores := none }
        = { loading := false, error := some { reason := "Error" }, usedCPU := none,
            numCores := none } ∧
      applyFailure { loading := false, error := none, usedCPU := some 5,
                     numCores := some 1 }
        = { loading := false, error := none, usedCPU := some 5, numCores := some 1 } :=
  ⟨(applyFailure_spec _).1 rfl, (applyFailure_spec _).2 rfl⟩

/-- C9: when a fetch succeeds but the core count is absent or zero, the
success handler only clears loading and error and returns early: the
stored usage value and core count are left unchanged. -/
theorem applySuccess_no_cores (s : GaugeState) (d : StatsResponse)
    (h : d.SysInfoCores = none ∨ d.SysInfoCores = some 0) :
    applySuccess s d = { s with loading := false, error := none } := by
  unfold applySuccess
  rcases h with h | h
  · rw [h]
  · rw [h]
    simp

/-- Witness for C9: a successful response carrying a zero core count
leaves the initial usage and core fields untouched. -/
theorem applySuccess_no_cores_app :
    applySuccess initialState { CPU := none, SysInfoCores := some 0 }
      = { initialState with loading := false, error := none } :=
  applySuccess_no_cores initialState { CPU := none, SysInfoCores := some 0 }
    (Or.inr rfl)

theorem applyFailure_numCores (s : GaugeState) :
    (applyFailure s).numCores = s.numCores := by
  unfold applyFailure
  split <;> rfl

theorem applyFailure_usedCPU (s : GaugeState) :
    (applyFailure s).usedCPU = s.usedCPU := by
  unfold applyFailure
  split <;> rfl

theorem applySuccess_cases (s : GaugeState) (d : StatsResponse) :
    applySuccess s d = { s with loading := false, error := none } ∨
    (∃ c, c ≠ 0 ∧ d.SysInfoCores = some c ∧
      ((∃ n, applySuccess s d
          = { s with loading := false, error := none, numCores := some c, usedCPU := some n }) ∨
        applySuccess s d
          = applyFailure { s with loading := false, error := none, numCores := some c })) := by
  unfold applySuccess
  cases hd : d.SysInfoCores with
  | none => left; rfl
  | some c =>
    by_cases hc : c = 0
    · left
      simp [hc]
    · right
      refine ⟨c, hc, rfl, ?_⟩
      cases hn : normalizeValue (sumCPUUsageOpt d.CPU) c with
      | some n => exact Or.inl ⟨n, by simp [hc, hn]⟩
      | none => exact Or.inr (by simp [hc, hn])

theorem reachable_core_inv (s : GaugeState) (h : Reachable s) :
    s.numCores ≠ some 0 ∧ (s.numCores = none → s.usedCPU = none) := by
  induction h with
  | init => simp [initialState]
  | step s f _ ih =>
    cases f with
    | failure =>
      simp only [step, applyFailure_numCores, applyFailure_usedCPU]
      exact ih
    | success d =>
      simp only [step]
      rcases applySuccess_cases s d with h | ⟨c, hc, hd, h | h⟩
      · rw [h]
        simpa using ih
      · obtain ⟨n, h⟩ := h
        rw [h]
        simp [hc]
      · rw [h]
        simp [applyFailure_numCores, applyFailure_usedCPU, hc]

/-- C6: in every reachable state whose stored core count is absent or
zero, the gauge receives a capacity of 1 and a usage value of 0: the
component never renders a zero capacity or a missing value there. -/
theorem gauge_defaults (s : GaugeState) (h : Reachable s)
    (hc : s.numCores = none ∨ s.numCores = some 0) :
    gaugeMax s = 1 ∧ gaugeValue s = 0 := by
  obtain ⟨h0, himp⟩ := reachable_core_inv s h
  rcases hc with hc | hc
  · have hu := himp hc
    simp [gaugeMax, gaugeValue, hc, hu]
  · exact absurd hc h0

/-- Witness for C6: the initial state has no core count and renders
capacity 1 and value 0. -/
theorem gauge_defaults_app :
    gaugeMax initialState = 1 ∧ gaugeValue initialState = 0 :=
  gauge_defaults initialState Reachable.init (Or.inl rfl)
